import Mathlib

/-!
Verification of the NetraASSIST retrieval-augmented QA core.

Shallow embedding of `server/services/vector-store.ts` (chunking, hybrid-score
fusion, context building) and `server/services/ai-service.ts` (answer
generation with retry, batch processing).  JavaScript strings are modelled as
`List Char`; floating-point scores are modelled as exact rationals; the
network is modelled as an explicit oracle giving the outcome of each HTTP
attempt.
-/

namespace NetraAssist

/-- JavaScript strings, modelled as character lists (index-based slicing). -/
abbrev Str := List Char

/-- `String.prototype.trim()`: strip whitespace from both ends. -/
def jsTrim (s : Str) : Str :=
  ((s.dropWhile Char.isWhitespace).reverse.dropWhile Char.isWhitespace).reverse

/-!
### Chunker — `chunkText` (vector-store.ts lines 86–98)

```js
function chunkText(text, chunkSize = 1000, overlap = 150) {
  const chunks = []; let i = 0;
  while (i < text.length) {
    const end = Math.min(i + chunkSize, text.length);
    const chunk = text.slice(i, end).trim();
    if (chunk) chunks.push(chunk);
    if (end === text.length) break;
    i = end - overlap;
    if (i < 0) i = 0;
  }
  return chunks;
}
```

The loop need not terminate (nothing validates `overlap < chunkSize`), so the
embedding is fuel-indexed: `none` means the fuel ran out before the loop
finished.  `Nat` subtraction `end - overlap` clamps at 0 exactly like the
`if (i < 0) i = 0` guard.
-/

def chunkTextFuel (text : Str) (chunkSize overlap : Nat) : Nat → Nat → Option (List Str)
  | 0, _ => none
  | fuel + 1, i =>
    if i < text.length then
      let e := min (i + chunkSize) text.length
      let c := jsTrim (List.take (e - i) (List.drop i text))
      let head := if c.isEmpty then ([] : List Str) else [c]
      if e = text.length then some head
      else
        match chunkTextFuel text chunkSize overlap fuel (e - overlap) with
        | none => none
        | some rest => some (head ++ rest)
    else some []

/-- `chunkText` run with enough fuel for any terminating configuration:
each productive iteration advances the index, so `text.length + 1`
iterations suffice whenever the loop terminates at all. -/
def chunkText (text : Str) (chunkSize overlap : Nat) : Option (List Str) :=
  chunkTextFuel text chunkSize overlap (text.length + 1) 0

/-- The raw (untrimmed, unfiltered) slices the same loop reads off the text:
`text.slice(i, end)` for the same index sequence. -/
def rawSlicesFuel (text : Str) (chunkSize overlap : Nat) : Nat → Nat → Option (List Str)
  | 0, _ => none
  | fuel + 1, i =>
    if i < text.length then
      let e := min (i + chunkSize) text.length
      let s := List.take (e - i) (List.drop i text)
      if e = text.length then some [s]
      else
        match rawSlicesFuel text chunkSize overlap fuel (e - overlap) with
        | none => none
        | some rest => some (s :: rest)
    else some []

def rawSlices (text : Str) (chunkSize overlap : Nat) : Option (List Str) :=
  rawSlicesFuel text chunkSize overlap (text.length + 1) 0

/-- De-duplicated concatenation: keep the first slice whole, drop the first
`overlap` characters (the region shared with the previous slice) of every
later slice. -/
def overlapConcat (overlap : Nat) : List Str → Str
  | [] => []
  | c :: rest => c ++ (rest.map (List.drop overlap)).flatten

/-!
### Score fusion — `hybridSearch` re-ranking (vector-store.ts line 164)

`const fused = alpha * r.score + (1 - alpha) * keywordScore;`
JavaScript floats are modelled as exact rationals.
-/

def fusedScore (alpha vectorScore keywordScore : ℚ) : ℚ :=
  alpha * vectorScore + (1 - alpha) * keywordScore

/-!
### Context builder — `buildContext` (vector-store.ts lines 197–208)

Payload fields mirror the point payload: `title` is tested for truthiness
(absent and empty behave alike, modelled as `[]`), `doc_id` uses nullish
coalescing with the point id (modelled as `Option`), `chunk_index ?? 0`.
-/

structure Payload where
  content : Str
  title : Str
  doc_id : Option Str
  chunk_index : Option Nat
deriving DecidableEq, Repr

structure RetrievedChunk where
  id : Str
  score : ℚ
  vectorScore : ℚ
  keywordScore : ℚ
  payload : Payload
deriving DecidableEq, Repr

/-- One source citation line:
`doc:${c.payload?.doc_id ?? c.id}${title}#${c.payload?.chunk_index ?? 0}`
where `title` is `" (${c.payload.title})"` when the title is truthy. -/
def sourceOf (c : RetrievedChunk) : Str :=
  let title := if c.payload.title.isEmpty then ([] : Str)
               else " (".toList ++ c.payload.title ++ ")".toList
  "doc:".toList ++ c.payload.doc_id.getD c.id ++ title
    ++ "#".toList ++ (Nat.repr (c.payload.chunk_index.getD 0)).toList

/-- The `"…"` appended on truncation (one character). -/
def ellipsisMarker : Str := "…".toList

/-- `parts.join("\n\n")` where each part is `"• " + content`. -/
def fullConcat (chunks : List RetrievedChunk) : Str :=
  List.intercalate "\n\n".toList (chunks.map (fun c => "• ".toList ++ c.payload.content))

/-- `buildContext(chunks, maxChars = 4000)`: whole-string truncation to
`maxChars` plus the ellipsis marker; one source entry per input chunk. -/
def buildContext (chunks : List RetrievedChunk) (maxChars : Nat) : Str × List Str :=
  let context := fullConcat chunks
  let context := if maxChars < context.length
                 then context.take maxChars ++ ellipsisMarker else context
  (context, chunks.map sourceOf)

/-!
### Answer generator — `AIService.generateAnswer` (ai-service.ts lines 32–108)

The network is an oracle: `responses a` is the outcome of the `fetch` on
attempt number `a`.  `ok content` is a successful response whose parsed
`choices?.[0]?.message?.content` is `content` (the empty list covers both a
missing and an empty content, which the `|| "No response generated"` fallback
treats alike); `httpError s` is a response with `response.ok` false and
status `s`; `netError` is a `fetch`/`json()` rejection.
-/

inductive FetchOutcome where
  | ok (content : Str)
  | httpError (status : Nat)
  | netError
deriving DecidableEq, Repr

def FetchOutcome.isOk : FetchOutcome → Bool
  | .ok _ => true
  | _ => false

def maxRetries : Nat := 3
def retryDelayMs : Nat := 300
def maxContextLength : Nat := 4000

def invalidQuestionMsg : Str := "Invalid question provided".toList
def noResponseMsg : Str := "No response generated".toList
def degradedAnswerMsg : Str := "Error generating answer - please try again.".toList
def unexpectedErrorMsg : Str := "Unexpected error".toList
def retryHintMsg : Str := "Error generating answer - please try regenerating this question".toList

/-- Observable outcome of one `generateAnswer` call: the returned record plus
an instrumentation trace — how many chat attempts were made and which backoff
sleeps (in ms) were performed. -/
structure LoopResult where
  answer : Str
  sources : List Str
  attempts : Nat
  delays : List Nat
deriving DecidableEq, Repr

/-- The retry loop `for (let attempt = 1; attempt <= maxRetries; attempt++)`.
`remaining` counts the loop iterations left (callers pass
`remaining = maxRetries`, `attempt = 1`, so `attempt + remaining =
maxRetries + 1` throughout).  A non-ok response raises inside the `try`;
the `catch` swallows it and lets the loop continue unless this was the last
attempt, in which case the degraded record is returned.  Only a 429 before
the last attempt sleeps `retryDelayMs * attempt` first. -/
def genLoop (responses : Nat → FetchOutcome) (sources : List Str) :
    Nat → Nat → List Nat → LoopResult
  | 0, attempt, delays => ⟨unexpectedErrorMsg, [], attempt - 1, delays⟩
  | remaining + 1, attempt, delays =>
    match responses attempt with
    | .ok content =>
        ⟨if content.isEmpty then noResponseMsg else content, sources, attempt, delays⟩
    | .httpError status =>
        if status = 429 ∧ attempt < maxRetries then
          genLoop responses sources remaining (attempt + 1)
            (delays ++ [retryDelayMs * attempt])
        else if attempt = maxRetries then ⟨degradedAnswerMsg, [], attempt, delays⟩
        else genLoop responses sources remaining (attempt + 1) delays
    | .netError =>
        if attempt = maxRetries then ⟨degradedAnswerMsg, [], attempt, delays⟩
        else genLoop responses sources remaining (attempt + 1) delays

/-- Environment of one `generateAnswer` call.  `retrieved = none` models the
retrieval phase (`hybridSearch`: embedding call or vector search) throwing;
`retrieved = some chunks` is a successful retrieval of those chunks. -/
structure GenEnv where
  retrieved : Option (List RetrievedChunk)
  responses : Nat → FetchOutcome

/-- `generateAnswer(question, history)`.  `none` models the call throwing to
its caller (which happens exactly when retrieval throws — the retry loop
itself always returns).  The prompt (history serialization etc.) does not
influence control flow and is not modelled. -/
def generateAnswer (question : Str) (env : GenEnv) : Option LoopResult :=
  if (jsTrim question).isEmpty then some ⟨invalidQuestionMsg, [], 0, []⟩
  else
    match env.retrieved with
    | none => none
    | some chunks =>
        some (genLoop env.responses (buildContext chunks maxContextLength).2
          maxRetries 1 [])

/-!
### Batch processor — `AIService.processQuestions` (ai-service.ts lines 110–135)
-/

inductive QStatus where
  | pending
  | processing
  | completed
  | failed
deriving DecidableEq, Repr

/-- The `Question` record of `shared/schema` (`questionSchema`): the core
mutates only `answer`, `sources`, `status`. -/
structure Question where
  id : Str
  text : Str
  answer : Option Str
  accepted : Bool
  status : QStatus
  sources : List Str
deriving DecidableEq, Repr

/-- The body of one iteration of the `processQuestions` loop: blank text is
marked failed with the fixed invalid-input message before any call; otherwise
`generateAnswer` runs — a normal return is recorded as completed, a throw is
caught and recorded as failed with the fixed retry-hint message. -/
def processStep (env : GenEnv) (q : Question) : Question :=
  if (jsTrim q.text).isEmpty then
    { q with status := .failed, answer := some invalidQuestionMsg, sources := [] }
  else
    match generateAnswer q.text env with
    | some r => { q with status := .completed, answer := some r.answer, sources := r.sources }
    | none => { q with status := .failed, answer := some retryHintMsg, sources := [] }

/-- The sequential loop, with the `processed` accumulator of the source.
`env i` is the environment question `i` runs against.  The history
(`processed.slice(0, i)`) only feeds the prompt and the inter-request sleep
has no observable effect on results, so neither changes any outcome. -/
def processQuestionsAux (env : Nat → GenEnv) :
    Nat → List Question → List Question → List Question
  | _, processed, [] => processed
  | i, processed, q :: rest =>
      processQuestionsAux env (i + 1) (processed ++ [processStep (env i) q]) rest

def processQuestions (env : Nat → GenEnv) (questions : List Question) : List Question :=
  processQuestionsAux env 0 [] questions

/-!
## Chunker lemmas

One-step unfolding lemmas for the two fuel-indexed loops, then the
correctness facts built on them.
-/

theorem rawSlicesFuel_done (text : Str) (cs ov fuel i : Nat) (hi : ¬ i < text.length) :
    rawSlicesFuel text cs ov (fuel + 1) i = some [] := by
  simp only [rawSlicesFuel, if_neg hi]

theorem rawSlicesFuel_last (text : Str) (cs ov fuel i : Nat) (hi : i < text.length)
    (he : min (i + cs) text.length = text.length) :
    rawSlicesFuel text cs ov (fuel + 1) i
      = some [List.take (min (i + cs) text.length - i) (List.drop i text)] := by
  simp only [rawSlicesFuel, if_pos hi, if_pos he]

theorem rawSlicesFuel_cons (text : Str) (cs ov fuel i : Nat) (hi : i < text.length)
    (he : ¬ min (i + cs) text.length = text.length) :
    rawSlicesFuel text cs ov (fuel + 1) i
      = (rawSlicesFuel text cs ov fuel (min (i + cs) text.length - ov)).map
          (fun rest => List.take (min (i + cs) text.length - i) (List.drop i text) :: rest) := by
  simp only [rawSlicesFuel, if_pos hi, if_neg he]
  cases rawSlicesFuel text cs ov fuel (min (i + cs) text.length - ov) <;> rfl

theorem chunkTextFuel_done (text : Str) (cs ov fuel i : Nat) (hi : ¬ i < text.length) :
    chunkTextFuel text cs ov (fuel + 1) i = some [] := by
  simp only [chunkTextFuel, if_neg hi]

theorem chunkTextFuel_last (text : Str) (cs ov fuel i : Nat) (hi : i < text.length)
    (he : min (i + cs) text.length = text.length) :
    chunkTextFuel text cs ov (fuel + 1) i
      = some (if (jsTrim (List.take (min (i + cs) text.length - i) (List.drop i text))).isEmpty
              then ([] : List Str)
              else [jsTrim (List.take (min (i + cs) text.length - i) (List.drop i text))]) := by
  simp only [chunkTextFuel, if_pos hi, if_pos he]

theorem chunkTextFuel_cons (text : Str) (cs ov fuel i : Nat) (hi : i < text.length)
    (he : ¬ min (i + cs) text.length = text.length) :
    chunkTextFuel text cs ov (fuel + 1) i
      = (chunkTextFuel text cs ov fuel (min (i + cs) text.length - ov)).map
          (fun rest =>
            (if (jsTrim (List.take (min (i + cs) text.length - i) (List.drop i text))).isEmpty
             then ([] : List Str)
             else [jsTrim (List.take (min (i + cs) text.length - i) (List.drop i text))])
            ++ rest) := by
  simp only [chunkTextFuel, if_pos hi, if_neg he]
  cases chunkTextFuel text cs ov fuel (min (i + cs) text.length - ov) <;> rfl

/-- Dropping the first `overlap` characters of every slice produced from
start index `i` onward yields exactly `text` from position `i + overlap`
onward.  Holds whenever the fuel exceeds the characters left to scan. -/
theorem rawSlicesFuel_tail (text : Str) (cs ov : Nat) (hov : ov < cs) :
    ∀ fuel i, text.length - i < fuel →
      ∃ L, rawSlicesFuel text cs ov fuel i = some L ∧
        (L.map (List.drop ov)).flatten = List.drop (i + ov) text := by
  intro fuel
  induction fuel with
  | zero => intro i h; omega
  | succ n ih =>
    intro i h
    by_cases hi : i < text.length
    · by_cases he : min (i + cs) text.length = text.length
      · rw [rawSlicesFuel_last text cs ov n i hi he]
        refine ⟨_, rfl, ?_⟩
        have hlen : (List.drop i text).length ≤ min (i + cs) text.length - i := by
          rw [List.length_drop]; omega
        rw [List.take_of_length_le hlen]
        simp [List.drop_drop]
      · have he' : min (i + cs) text.length = i + cs := by omega
        have hrec : text.length - (min (i + cs) text.length - ov) < n := by omega
        obtain ⟨rest, hrest, hflat⟩ := ih (min (i + cs) text.length - ov) hrec
        rw [rawSlicesFuel_cons text cs ov n i hi he, hrest]
        refine ⟨_, rfl, ?_⟩
        have hidx : min (i + cs) text.length - ov + ov = i + cs := by omega
        rw [hidx] at hflat
        simp only [List.map_cons, List.flatten_cons, hflat, he']
        have h1 : i + cs - i = cs := by omega
        rw [h1, List.drop_take, List.drop_drop]
        have h2 : List.drop (i + cs) text = List.drop (cs - ov) (List.drop (i + ov) text) := by
          rw [List.drop_drop]
          congr 1
          omega
        rw [h2, List.take_append_drop]
    · rw [rawSlicesFuel_done text cs ov n i hi]
      refine ⟨_, rfl, ?_⟩
      simp only [List.map_nil, List.flatten_nil]
      rw [eq_comm, List.drop_eq_nil_of_le]
      omega

/-- The raw slices always exist for a valid configuration and their
overlap-de-duplicated concatenation is the whole text. -/
theorem rawSlices_reconstruct (text : Str) (cs ov : Nat) (hov : ov < cs) :
    ∃ L, rawSlices text cs ov = some L ∧ overlapConcat ov L = text := by
  by_cases h0 : 0 < text.length
  · by_cases he : min (0 + cs) text.length = text.length
    · rw [rawSlices, rawSlicesFuel_last text cs ov text.length 0 h0 he]
      refine ⟨_, rfl, ?_⟩
      have hlen : (List.drop 0 text).length ≤ min (0 + cs) text.length - 0 := by
        rw [List.length_drop]; omega
      rw [List.take_of_length_le hlen]
      simp [overlapConcat]
    · have he' : min (0 + cs) text.length = cs := by omega
      have hrec : text.length - (min (0 + cs) text.length - ov) < text.length := by omega
      obtain ⟨rest, hrest, hflat⟩ :=
        rawSlicesFuel_tail text cs ov hov text.length (min (0 + cs) text.length - ov) hrec
      rw [rawSlices, rawSlicesFuel_cons text cs ov text.length 0 h0 he, hrest]
      refine ⟨_, rfl, ?_⟩
      have hidx : min (0 + cs) text.length - ov + ov = cs := by omega
      rw [hidx] at hflat
      simp only [overlapConcat, hflat, he', List.drop_zero, Nat.sub_zero]
      exact List.take_append_drop cs text
  · rw [rawSlices, rawSlicesFuel_done text cs ov text.length 0 h0]
    refine ⟨_, rfl, ?_⟩
    simp only [overlapConcat]
    exact (List.eq_nil_of_length_eq_zero (by omega)).symm

/-- The produced chunks are exactly the whitespace-trimmed raw slices with
the slices that are empty after trimming dropped. -/
theorem chunkTextFuel_eq_rawSlicesFuel (text : Str) (cs ov : Nat) :
    ∀ fuel i, chunkTextFuel text cs ov fuel i =
      (rawSlicesFuel text cs ov fuel i).map
        (fun L => (L.map jsTrim).filter (fun c => !c.isEmpty)) := by
  intro fuel
  induction fuel with
  | zero => intro i; rfl
  | succ n ih =>
    intro i
    by_cases hi : i < text.length
    · by_cases he : min (i + cs) text.length = text.length
      · rw [chunkTextFuel_last text cs ov n i hi he, rawSlicesFuel_last text cs ov n i hi he]
        by_cases hc :
            (jsTrim (List.take (min (i + cs) text.length - i) (List.drop i text))).isEmpty
        · simp [List.filter_cons, hc]
        · simp [List.filter_cons, hc]
      · rw [chunkTextFuel_cons text cs ov n i hi he, rawSlicesFuel_cons text cs ov n i hi he, ih]
        cases hrec : rawSlicesFuel text cs ov n (min (i + cs) text.length - ov) with
        | none => rfl
        | some rest =>
          by_cases hc :
              (jsTrim (List.take (min (i + cs) text.length - i) (List.drop i text))).isEmpty
          · simp [List.filter_cons, hc]
          · simp [List.filter_cons, hc]
    · rw [chunkTextFuel_done text cs ov n i hi, rawSlicesFuel_done text cs ov n i hi]
      rfl

/-- With enough fuel the fuel-indexed loop yields a value — the loop body
advances the scan index by `cs - ov ≥ 1` per productive iteration. -/
theorem chunkText_isSome (text : Str) (cs ov : Nat) (hov : ov < cs) :
    (chunkText text cs ov).isSome = true := by
  obtain ⟨L, hL, _⟩ := rawSlicesFuel_tail text cs ov hov (text.length + 1) 0 (by omega)
  rw [chunkText, chunkTextFuel_eq_rawSlicesFuel, hL]
  rfl

/-- Membership form of the non-empty-chunk invariant. -/
theorem chunkText_mem_nonempty {text : Str} {cs ov : Nat} {cl : List Str}
    (h : chunkText text cs ov = some cl) : ∀ c ∈ cl, c.isEmpty = false := by
  intro c hc
  rw [chunkText, chunkTextFuel_eq_rawSlicesFuel] at h
  cases hraw : rawSlicesFuel text cs ov (text.length + 1) 0 with
  | none => rw [hraw] at h; exact absurd h (by simp)
  | some L =>
    rw [hraw, Option.map_some', Option.some_inj] at h
    subst h
    have := List.of_mem_filter hc
    simpa using this

/-- A loop iteration that maps the scan index back to itself makes the loop
run forever: no amount of fuel produces a result. -/
theorem chunkTextFuel_self_loop (text : Str) (cs ov i : Nat)
    (hi : i < text.length) (he : ¬ min (i + cs) text.length = text.length)
    (hstep : min (i + cs) text.length - ov = i) :
    ∀ fuel, chunkTextFuel text cs ov fuel i = none := by
  intro fuel
  induction fuel with
  | zero => rfl
  | succ n ih =>
    rw [chunkTextFuel_cons text cs ov n i hi he, hstep, ih]
    rfl

/-!
## Retry-loop lemmas

One-step unfolding lemmas for `genLoop`, then the behaviour of full calls.
-/

theorem genLoop_ok (responses : Nat → FetchOutcome) (sources : List Str)
    (remaining attempt : Nat) (delays : List Nat) (c : Str)
    (hr : responses attempt = .ok c) :
    genLoop responses sources (remaining + 1) attempt delays
      = ⟨if c.isEmpty then noResponseMsg else c, sources, attempt, delays⟩ := by
  simp only [genLoop, hr]

theorem genLoop_step429 (responses : Nat → FetchOutcome) (sources : List Str)
    (remaining attempt : Nat) (delays : List Nat)
    (hr : responses attempt = .httpError 429) (hlt : attempt < maxRetries) :
    genLoop responses sources (remaining + 1) attempt delays
      = genLoop responses sources remaining (attempt + 1)
          (delays ++ [retryDelayMs * attempt]) := by
  simp only [genLoop, hr]
  rw [if_pos ⟨trivial, hlt⟩]

theorem genLoop_stepHttpNon429 (responses : Nat → FetchOutcome) (sources : List Str)
    (remaining attempt : Nat) (delays : List Nat) (s : Nat)
    (hr : responses attempt = .httpError s) (hs : ¬ s = 429)
    (hne : ¬ attempt = maxRetries) :
    genLoop responses sources (remaining + 1) attempt delays
      = genLoop responses sources remaining (attempt + 1) delays := by
  simp only [genLoop, hr]
  rw [if_neg (fun hc => hs hc.1), if_neg hne]

theorem genLoop_lastHttp (responses : Nat → FetchOutcome) (sources : List Str)
    (remaining attempt : Nat) (delays : List Nat) (s : Nat)
    (hr : responses attempt = .httpError s) (hmax : attempt = maxRetries) :
    genLoop responses sources (remaining + 1) attempt delays
      = ⟨degradedAnswerMsg, [], attempt, delays⟩ := by
  simp only [genLoop, hr]
  rw [if_neg (by rintro ⟨-, hc⟩; omega), if_pos hmax]

theorem genLoop_stepNet (responses : Nat → FetchOutcome) (sources : List Str)
    (remaining attempt : Nat) (delays : List Nat)
    (hr : responses attempt = .netError) (hne : ¬ attempt = maxRetries) :
    genLoop responses sources (remaining + 1) attempt delays
      = genLoop responses sources remaining (attempt + 1) delays := by
  simp only [genLoop, hr]
  rw [if_neg hne]

theorem genLoop_lastNet (responses : Nat → FetchOutcome) (sources : List Str)
    (remaining attempt : Nat) (delays : List Nat)
    (hr : responses attempt = .netError) (hmax : attempt = maxRetries) :
    genLoop responses sources (remaining + 1) attempt delays
      = ⟨degradedAnswerMsg, [], attempt, delays⟩ := by
  simp only [genLoop, hr]
  rw [if_pos hmax]

/-- If every attempt fails (any mix of non-2xx statuses and network errors),
the loop runs all remaining attempts and returns the degraded record. -/
theorem genLoop_allFail (responses : Nat → FetchOutcome) (sources : List Str)
    (hfail : ∀ a, (responses a).isOk = false) :
    ∀ r attempt delays, attempt + r = maxRetries →
      ∃ ds, genLoop responses sources (r + 1) attempt delays
        = ⟨degradedAnswerMsg, [], maxRetries, ds⟩ := by
  intro r
  induction r with
  | zero =>
    intro attempt delays h
    have ha : attempt = maxRetries := by omega
    cases hr : responses attempt with
    | ok c =>
      have hko := hfail attempt
      rw [hr] at hko
      exact absurd hko (by simp [FetchOutcome.isOk])
    | httpError s =>
      exact ⟨delays, by rw [genLoop_lastHttp responses sources 0 attempt delays s hr ha, ha]⟩
    | netError =>
      exact ⟨delays, by rw [genLoop_lastNet responses sources 0 attempt delays hr ha, ha]⟩
  | succ n ih =>
    intro attempt delays h
    have hlt : attempt < maxRetries := by omega
    have hne : ¬ attempt = maxRetries := by omega
    cases hr : responses attempt with
    | ok c =>
      have hko := hfail attempt
      rw [hr] at hko
      exact absurd hko (by simp [FetchOutcome.isOk])
    | httpError s =>
      by_cases hs : s = 429
      · obtain ⟨ds, hds⟩ := ih (attempt + 1) (delays ++ [retryDelayMs * attempt]) (by omega)
        subst hs
        exact ⟨ds, by rw [genLoop_step429 responses sources (n + 1) attempt delays hr hlt]; exact hds⟩
      · obtain ⟨ds, hds⟩ := ih (attempt + 1) delays (by omega)
        exact ⟨ds, by
          rw [genLoop_stepHttpNon429 responses sources (n + 1) attempt delays s hr hs hne]
          exact hds⟩
    | netError =>
      obtain ⟨ds, hds⟩ := ih (attempt + 1) delays (by omega)
      exact ⟨ds, by rw [genLoop_stepNet responses sources (n + 1) attempt delays hr hne]; exact hds⟩

theorem genLoop_allFail_top (responses : Nat → FetchOutcome) (sources : List Str)
    (hfail : ∀ a, (responses a).isOk = false) :
    ∃ ds, genLoop responses sources maxRetries 1 []
      = ⟨degradedAnswerMsg, [], maxRetries, ds⟩ :=
  show ∃ ds, genLoop responses sources (2 + 1) 1 [] = ⟨degradedAnswerMsg, [], maxRetries, ds⟩
    from genLoop_allFail responses sources hfail 2 1 [] (by decide)

/-- A 429 on every attempt walks the full linear-backoff schedule. -/
theorem genLoop_429_schedule (responses : Nat → FetchOutcome) (sources : List Str)
    (h429 : ∀ a, responses a = .httpError 429) :
    genLoop responses sources maxRetries 1 []
      = ⟨degradedAnswerMsg, [], maxRetries, [retryDelayMs * 1, retryDelayMs * 2]⟩ := by
  calc genLoop responses sources maxRetries 1 []
      = genLoop responses sources 2 (1 + 1) ([] ++ [retryDelayMs * 1]) :=
        genLoop_step429 responses sources 2 1 [] (h429 1) (by decide)
    _ = genLoop responses sources (1 + 1) 2 [retryDelayMs * 1] := by norm_num
    _ = genLoop responses sources 1 (2 + 1) ([retryDelayMs * 1] ++ [retryDelayMs * 2]) :=
        genLoop_step429 responses sources 1 2 [retryDelayMs * 1] (h429 2) (by decide)
    _ = genLoop responses sources (0 + 1) 3 [retryDelayMs * 1, retryDelayMs * 2] := by norm_num
    _ = ⟨degradedAnswerMsg, [], 3, [retryDelayMs * 1, retryDelayMs * 2]⟩ :=
        genLoop_lastHttp responses sources 0 3 [retryDelayMs * 1, retryDelayMs * 2] 429 (h429 3) rfl
    _ = ⟨degradedAnswerMsg, [], maxRetries, [retryDelayMs * 1, retryDelayMs * 2]⟩ := rfl

theorem generateAnswer_some (question : Str) (chunks : List RetrievedChunk)
    (responses : Nat → FetchOutcome) (hq : (jsTrim question).isEmpty = false) :
    generateAnswer question ⟨some chunks, responses⟩
      = some (genLoop responses (buildContext chunks maxContextLength).2 maxRetries 1 []) := by
  simp [generateAnswer, hq]

theorem generateAnswer_retrieval_throw (question : Str) (responses : Nat → FetchOutcome)
    (hq : (jsTrim question).isEmpty = false) :
    generateAnswer question ⟨none, responses⟩ = none := by
  simp [generateAnswer, hq]

/-!
## Batch-processor lemmas
-/

theorem processQuestionsAux_append (env : Nat → GenEnv) :
    ∀ qs i acc, processQuestionsAux env i acc qs = acc ++ processQuestionsAux env i [] qs := by
  intro qs
  induction qs with
  | nil => intro i acc; simp [processQuestionsAux]
  | cons q rest ih =>
    intro i acc
    simp only [processQuestionsAux]
    rw [ih (i + 1) (acc ++ [processStep (env i) q]),
        ih (i + 1) ([] ++ [processStep (env i) q])]
    simp

theorem processQuestionsAux_length (env : Nat → GenEnv) :
    ∀ qs i, (processQuestionsAux env i [] qs).length = qs.length := by
  intro qs
  induction qs with
  | nil => intro i; rfl
  | cons q rest ih =>
    intro i
    simp only [processQuestionsAux]
    rw [processQuestionsAux_append env rest (i + 1) ([] ++ [processStep (env i) q])]
    simp [ih]

theorem processQuestionsAux_getElem? (env : Nat → GenEnv) :
    ∀ qs i j, (processQuestionsAux env i [] qs)[j]?
      = (qs[j]?).map (fun q => processStep (env (i + j)) q) := by
  intro qs
  induction qs with
  | nil => intro i j; simp [processQuestionsAux]
  | cons q rest ih =>
    intro i j
    simp only [processQuestionsAux]
    rw [processQuestionsAux_append env rest (i + 1) ([] ++ [processStep (env i) q])]
    simp only [List.nil_append, List.singleton_append]
    cases j with
    | zero => simp
    | succ m =>
      simp only [List.getElem?_cons_succ]
      rw [ih (i + 1) m]
      have harith : i + 1 + m = i + (m + 1) := by omega
      rw [harith]

/-!
## Claim theorems
-/

/-- Claim C1 (code bug): the chunker does **not** fail fast on
`overlap ≥ size`.  With `size = 100`, `overlap = 150` and a 101-character
text, every iteration resets the scan index to 0 (`i = end - overlap`
clamped), so the loop never terminates: no fuel bound suffices, and the
canonical entry point yields nothing.  No `InvalidConfiguration` error
exists anywhere on this path. -/
theorem chunkText_overlap_ge_size_loops :
    (∀ fuel, chunkTextFuel (List.replicate 101 'a') 100 150 fuel 0 = none)
    ∧ chunkText (List.replicate 101 'a') 100 150 = none := by
  have h := chunkTextFuel_self_loop (List.replicate 101 'a') 100 150 0
    (by decide) (by decide) (by decide)
  exact ⟨h, h _⟩

/-- Claim C2 (counterexample): a non-429 failure (HTTP 500 on every attempt)
IS retried — three attempts are made — and after exhaustion (on 500s or on
429s alike) the call returns a normal degraded record, never a thrown typed
error. -/
theorem nonRateLimit_not_retried_cex :
    (generateAnswer "hi".toList ⟨some [], fun _ => .httpError 500⟩
      = some ⟨degradedAnswerMsg, [], 3, []⟩)
    ∧ generateAnswer "hi".toList ⟨some [], fun _ => .httpError 500⟩ ≠ none
    ∧ (generateAnswer "hi".toList ⟨some [], fun _ => .httpError 429⟩
      = some ⟨degradedAnswerMsg, [], 3, [300, 600]⟩)
    ∧ generateAnswer "hi".toList ⟨some [], fun _ => .httpError 429⟩ ≠ none := by
  decide

/-- Claim C2 (amended): any failing attempt — non-2xx status of any value or
a network error — is caught by the retry loop and retried up to the same
3-attempt ceiling (a non-429 failure on attempt 1 followed by a success on
attempt 2 yields the attempt-2 answer); only a 429 before the last attempt
adds a backoff delay; when every attempt fails the call returns the normal
degraded record (fixed error answer, empty sources), not a thrown failure. -/
theorem allFailures_retried_then_degraded (question : Str) (chunks : List RetrievedChunk)
    (responses : Nat → FetchOutcome) (hq : (jsTrim question).isEmpty = false) :
    (∀ s c, responses 1 = .httpError s → responses 2 = .ok c →
      generateAnswer question ⟨some chunks, responses⟩
        = some ⟨if c.isEmpty then noResponseMsg else c,
                (buildContext chunks maxContextLength).2, 2,
                if s = 429 then [retryDelayMs * 1] else []⟩)
    ∧ ((∀ a, (responses a).isOk = false) →
      ∃ ds, generateAnswer question ⟨some chunks, responses⟩
        = some ⟨degradedAnswerMsg, [], maxRetries, ds⟩) := by
  constructor
  · intro s c h1 h2
    rw [generateAnswer_some question chunks responses hq]
    refine congrArg some ?_
    by_cases hs : s = 429
    · subst hs
      rw [if_pos rfl]
      calc genLoop responses (buildContext chunks maxContextLength).2 maxRetries 1 []
          = genLoop responses (buildContext chunks maxContextLength).2 2 (1 + 1)
              ([] ++ [retryDelayMs * 1]) :=
            genLoop_step429 responses _ 2 1 [] h1 (by decide)
        _ = genLoop responses (buildContext chunks maxContextLength).2 (1 + 1) 2
              [retryDelayMs * 1] := by norm_num
        _ = ⟨if c.isEmpty then noResponseMsg else c,
             (buildContext chunks maxContextLength).2, 2, [retryDelayMs * 1]⟩ :=
            genLoop_ok responses _ 1 2 [retryDelayMs * 1] c h2
    · rw [if_neg hs]
      calc genLoop responses (buildContext chunks maxContextLength).2 maxRetries 1 []
          = genLoop responses (buildContext chunks maxContextLength).2 2 (1 + 1) [] :=
            genLoop_stepHttpNon429 responses _ 2 1 [] s h1 hs (by decide)
        _ = genLoop responses (buildContext chunks maxContextLength).2 (1 + 1) 2 [] := by
            norm_num
        _ = ⟨if c.isEmpty then noResponseMsg else c,
             (buildContext chunks maxContextLength).2, 2, []⟩ :=
            genLoop_ok responses _ 1 2 [] c h2
  · intro hfail
    obtain ⟨ds, hds⟩ := genLoop_allFail_top responses (buildContext chunks maxContextLength).2 hfail
    exact ⟨ds, by rw [generateAnswer_some question chunks responses hq, hds]⟩

/-- Witness for the amended C2 at concrete inputs: a 500 on attempt 1 is
retried and the attempt-2 success is returned. -/
theorem allFailures_retried_then_degraded_witness :
    generateAnswer "hi".toList
        ⟨some [], fun a => if a = 1 then .httpError 500 else .ok "fine".toList⟩
      = some ⟨"fine".toList, [], 2, []⟩ := by
  have h := (allFailures_retried_then_degraded "hi".toList []
    (fun a => if a = 1 then .httpError 500 else .ok "fine".toList) (by decide)).1
    500 "fine".toList rfl rfl
  exact h.trans (by decide)

/-- Claim C3 (counterexample): for `T = " a"` the single produced chunk is
the trimmed `"a"`, whose de-duplicated concatenation is `"a" ≠ " a"` — the
trimming (and dropping of blank slices) breaks exact reconstruction. -/
theorem chunk_trim_breaks_reconstruction :
    chunkText " a".toList 1000 150 = some ["a".toList]
    ∧ overlapConcat 150 ["a".toList] ≠ " a".toList := by
  decide

/-- Claim C3 (amended): for every text, chunking with size 1000 / overlap 150
succeeds; the **raw** slices the loop reads reconstruct the text exactly when
the 150-character overlapped regions are de-duplicated; the returned chunks
are exactly those slices trimmed with the blank ones dropped; and no
returned chunk is empty after trimming. -/
theorem chunk_slices_reconstruct (text : Str) :
    (∃ L, rawSlices text 1000 150 = some L ∧ overlapConcat 150 L = text
      ∧ chunkText text 1000 150 = some ((L.map jsTrim).filter (fun c => !c.isEmpty)))
    ∧ ∀ cl, chunkText text 1000 150 = some cl → ∀ c ∈ cl, c.isEmpty = false := by
  constructor
  · obtain ⟨L, hL, hc⟩ := rawSlices_reconstruct text 1000 150 (by norm_num)
    refine ⟨L, hL, hc, ?_⟩
    rw [chunkText, chunkTextFuel_eq_rawSlicesFuel]
    rw [rawSlices] at hL
    rw [hL]
    rfl
  · intro cl hcl
    exact chunkText_mem_nonempty hcl

/-- Witness for the amended C3 at a concrete text. -/
theorem chunk_slices_reconstruct_witness :
    chunkText "ab".toList 1000 150 = some ["ab".toList]
    ∧ ("ab".toList).isEmpty = false := by
  have h := (chunk_slices_reconstruct "ab".toList).2 ["ab".toList] (by decide)
    "ab".toList (by decide)
  exact ⟨by decide, h⟩

/-- Claim C4: when the chat endpoint answers HTTP 429 on every attempt,
`generateAnswer` makes exactly 3 attempts, sleeping `retryDelayMs * 1` before
the 2nd and `retryDelayMs * 2` before the 3rd, then reports failure (the
degraded record). -/
theorem rateLimit_retry_schedule (question : Str) (chunks : List RetrievedChunk)
    (responses : Nat → FetchOutcome) (hq : (jsTrim question).isEmpty = false)
    (h429 : ∀ a, responses a = .httpError 429) :
    generateAnswer question ⟨some chunks, responses⟩
      = some ⟨degradedAnswerMsg, [], 3, [retryDelayMs * 1, retryDelayMs * 2]⟩ := by
  rw [generateAnswer_some question chunks responses hq,
      genLoop_429_schedule responses (buildContext chunks maxContextLength).2 h429]
  rfl

/-- Witness for C4 at concrete inputs. -/
theorem rateLimit_retry_schedule_witness :
    generateAnswer "What is the refund window?".toList ⟨some [], fun _ => .httpError 429⟩
      = some ⟨degradedAnswerMsg, [], 3, [retryDelayMs * 1, retryDelayMs * 2]⟩ :=
  rateLimit_retry_schedule "What is the refund window?".toList []
    (fun _ => .httpError 429) (by decide) (fun _ => rfl)

/-- Claim C5: `processQuestions` returns a same-length list, entry `i` being
exactly the processing of input question `i` against its own environment —
so one question's failure cannot affect any other entry.  A non-blank
question whose generator call throws becomes the single failed entry with
the fixed retry-hint answer and no sources; every non-blank question whose
retrieval succeeds completes; ids, texts and acceptance flags are preserved. -/
theorem processQuestions_batch_isolation (env : Nat → GenEnv) (qs : List Question) :
    (processQuestions env qs).length = qs.length
    ∧ (∀ i, (processQuestions env qs)[i]? = (qs[i]?).map (fun q => processStep (env i) q))
    ∧ (∀ e q, (jsTrim q.text).isEmpty = false → e.retrieved = none →
        processStep e q
          = { q with status := .failed, answer := some retryHintMsg, sources := [] })
    ∧ (∀ e q chunks, (jsTrim q.text).isEmpty = false → e.retrieved = some chunks →
        (processStep e q).status = .completed)
    ∧ (∀ e q, (processStep e q).id = q.id ∧ (processStep e q).text = q.text
        ∧ (processStep e q).accepted = q.accepted) := by
  refine ⟨?_, ?_, ?_, ?_, ?_⟩
  · rw [processQuestions]
    exact processQuestionsAux_length env qs 0
  · intro i
    rw [processQuestions, processQuestionsAux_getElem? env qs 0 i]
    simp
  · intro e q hq hret
    obtain ⟨ret, resp⟩ := e
    cases hret
    have hga := generateAnswer_retrieval_throw q.text resp hq
    simp [processStep, hq, hga]
  · intro e q chunks hq hret
    obtain ⟨ret, resp⟩ := e
    cases hret
    have hga := generateAnswer_some q.text chunks resp hq
    simp [processStep, hq, hga]
  · intro e q
    by_cases hq : (jsTrim q.text).isEmpty = true
    · simp [processStep, hq]
    · cases hga : generateAnswer q.text e <;>
        simp [processStep, hq, hga]

/-- Witness for C5: the spec scenario — five questions, question 3's
retrieval forced to throw — via the theorem. -/
theorem processQuestions_batch_isolation_witness :
    (processQuestions
        (fun i => if i = 2 then ⟨none, fun _ => .ok "A".toList⟩
                  else ⟨some [], fun _ => .ok "A".toList⟩)
        [⟨"1".toList, "q1".toList, none, false, .pending, []⟩,
         ⟨"2".toList, "q2".toList, none, false, .pending, []⟩,
         ⟨"3".toList, "q3".toList, none, false, .pending, []⟩,
         ⟨"4".toList, "q4".toList, none, false, .pending, []⟩,
         ⟨"5".toList, "q5".toList, none, false, .pending, []⟩]).length = 5
    ∧ (processQuestions
        (fun i => if i = 2 then ⟨none, fun _ => .ok "A".toList⟩
                  else ⟨some [], fun _ => .ok "A".toList⟩)
        [⟨"1".toList, "q1".toList, none, false, .pending, []⟩,
         ⟨"2".toList, "q2".toList, none, false, .pending, []⟩,
         ⟨"3".toList, "q3".toList, none, false, .pending, []⟩,
         ⟨"4".toList, "q4".toList, none, false, .pending, []⟩,
         ⟨"5".toList, "q5".toList, none, false, .pending, []⟩])[2]?
      = some ⟨"3".toList, "q3".toList, some retryHintMsg, false, .failed, []⟩
    ∧ (processQuestions
        (fun i => if i = 2 then ⟨none, fun _ => .ok "A".toList⟩
                  else ⟨some [], fun _ => .ok "A".toList⟩)
        [⟨"1".toList, "q1".toList, none, false, .pending, []⟩,
         ⟨"2".toList, "q2".toList, none, false, .pending, []⟩,
         ⟨"3".toList, "q3".toList, none, false, .pending, []⟩,
         ⟨"4".toList, "q4".toList, none, false, .pending, []⟩,
         ⟨"5".toList, "q5".toList, none, false, .pending, []⟩])[1]?
      = some ⟨"2".toList, "q2".toList, some "A".toList, false, .completed, []⟩ := by
  have h := processQuestions_batch_isolation
    (fun i => if i = 2 then ⟨none, fun _ => .ok "A".toList⟩
              else ⟨some [], fun _ => .ok "A".toList⟩)
    [⟨"1".toList, "q1".toList, none, false, .pending, []⟩,
     ⟨"2".toList, "q2".toList, none, false, .pending, []⟩,
     ⟨"3".toList, "q3".toList, none, false, .pending, []⟩,
     ⟨"4".toList, "q4".toList, none, false, .pending, []⟩,
     ⟨"5".toList, "q5".toList, none, false, .pending, []⟩]
  refine ⟨by rw [h.1]; rfl, ?_, ?_⟩
  · rw [h.2.1 2]
    decide
  · rw [h.2.1 1]
    decide

/-- Claim C6: a blank (empty or whitespace-only) question short-circuits:
`generateAnswer` returns the fixed invalid-question record with zero chat
attempts for **every** environment — including one whose retrieval would
throw, so neither retrieval nor chat is consulted — and the batch loop marks
such a question failed with the same fixed message before any call. -/
theorem blank_question_short_circuit (env : GenEnv) (q : Question)
    (hq : (jsTrim q.text).isEmpty = true) :
    generateAnswer q.text env = some ⟨invalidQuestionMsg, [], 0, []⟩
    ∧ processStep env q
      = { q with status := .failed, answer := some invalidQuestionMsg, sources := [] } := by
  constructor
  · simp [generateAnswer, hq]
  · simp [processStep, hq]

/-- Witness for C6 at a whitespace-only question and a throwing environment. -/
theorem blank_question_short_circuit_witness :
    generateAnswer "   ".toList ⟨none, fun _ => .netError⟩
      = some ⟨invalidQuestionMsg, [], 0, []⟩
    ∧ processStep ⟨none, fun _ => .netError⟩
        ⟨"7".toList, "   ".toList, none, false, .pending, []⟩
      = ⟨"7".toList, "   ".toList, some invalidQuestionMsg, false, .failed, []⟩ := by
  have h := blank_question_short_circuit ⟨none, fun _ => .netError⟩
    ⟨"7".toList, "   ".toList, none, false, .pending, []⟩ (by decide)
  exact ⟨h.1, h.2.trans (by decide)⟩

/-- Claim C7: `buildContext` never returns a context longer than
`maxChars + length(ellipsis marker)`, and the truncation is whole-string:
the context is either the full bullet-joined concatenation or its
`maxChars`-prefix with the marker appended. -/
theorem buildContext_length_bound (chunks : List RetrievedChunk) (maxChars : Nat) :
    (buildContext chunks maxChars).1.length ≤ maxChars + ellipsisMarker.length
    ∧ (buildContext chunks maxChars).1
      = (if maxChars < (fullConcat chunks).length
         then (fullConcat chunks).take maxChars ++ ellipsisMarker
         else fullConcat chunks) := by
  have heq : (buildContext chunks maxChars).1
      = (if maxChars < (fullConcat chunks).length
         then (fullConcat chunks).take maxChars ++ ellipsisMarker
         else fullConcat chunks) := rfl
  refine ⟨?_, heq⟩
  rw [heq]
  by_cases h : maxChars < (fullConcat chunks).length
  · rw [if_pos h]
    have hm : ellipsisMarker.length = 1 := rfl
    simp only [List.length_append, List.length_take, hm]
    omega
  · rw [if_neg h]
    omega

/-- Claim C8: the fused score `alpha * vectorScore + (1 - alpha) *
keywordScore` is monotone non-decreasing in the keyword score for any fixed
`alpha ∈ [0, 1]` and fixed vector similarity. -/
theorem fusedScore_monotone_keyword (alpha v k₁ k₂ : ℚ)
    (h0 : 0 ≤ alpha) (h1 : alpha ≤ 1) (hk : k₁ ≤ k₂) :
    fusedScore alpha v k₁ ≤ fusedScore alpha v k₂ := by
  unfold fusedScore
  have hpos : 0 ≤ 1 - alpha := by linarith
  have := mul_le_mul_of_nonneg_left hk hpos
  linarith

/-- Witness for C8 at the production weight `alpha = 0.7`. -/
theorem fusedScore_monotone_keyword_witness :
    (0 : ℚ) ≤ 7 / 10 ∧ (7 / 10 : ℚ) ≤ 1 ∧ (0 : ℚ) ≤ 1
    ∧ fusedScore (7 / 10) (1 / 2) 0 ≤ fusedScore (7 / 10) (1 / 2) 1 :=
  ⟨by norm_num, by norm_num, by norm_num,
   fusedScore_monotone_keyword (7 / 10) (1 / 2) 0 1 (by norm_num) (by norm_num) (by norm_num)⟩

/-- Claim C9: error propagation is asymmetric — a retrieval-phase failure
makes `generateAnswer` throw to its caller, while exhausting the chat retry
budget yields a normally-returned degraded record (fixed
"please try again" answer, empty sources), never a thrown exception. -/
theorem error_propagation_asymmetry (question : Str) (chunks : List RetrievedChunk)
    (responses : Nat → FetchOutcome) (hq : (jsTrim question).isEmpty = false) :
    generateAnswer question ⟨none, responses⟩ = none
    ∧ ((∀ a, (responses a).isOk = false) →
      ∃ ds, generateAnswer question ⟨some chunks, responses⟩
        = some ⟨degradedAnswerMsg, [], maxRetries, ds⟩) := by
  refine ⟨generateAnswer_retrieval_throw question responses hq, ?_⟩
  intro hfail
  obtain ⟨ds, hds⟩ := genLoop_allFail_top responses (buildContext chunks maxContextLength).2 hfail
  exact ⟨ds, by rw [generateAnswer_some question chunks responses hq, hds]⟩

/-- Witness for C9 at a concrete question and always-failing network. -/
theorem error_propagation_asymmetry_witness :
    generateAnswer "hi".toList ⟨none, fun _ => .netError⟩ = none
    ∧ ∃ ds, generateAnswer "hi".toList ⟨some [], fun _ => .netError⟩
        = some ⟨degradedAnswerMsg, [], maxRetries, ds⟩ := by
  have h := error_propagation_asymmetry "hi".toList [] (fun _ => .netError) (by decide)
  exact ⟨h.1, h.2 (fun a => rfl)⟩

/-- Claim C10: for `0 < overlap < chunkSize` the chunker terminates, within
a number of iterations bounded by the text length (the entry point runs the
loop with fuel `text.length + 1` and always yields a result). -/
theorem chunkText_terminates (text : Str) (cs ov : Nat)
    (h0 : 0 < ov) (hlt : ov < cs) :
    ∃ cl, chunkText text cs ov = some cl :=
  Option.isSome_iff_exists.mp (chunkText_isSome text cs ov hlt)

/-- Witness for C10 at a concrete text and the production configuration. -/
theorem chunkText_terminates_witness :
    0 < 150 ∧ 150 < 1000 ∧ ∃ cl, chunkText "hello world".toList 1000 150 = some cl :=
  ⟨by decide, by decide, chunkText_terminates "hello world".toList 1000 150 (by decide) (by decide)⟩

end NetraAssist
